import Mathlib

/-!
Shallow embedding of the krakend gateway core: the mux endpoint handler
(`router/mux/endpoint.go`), the mux registration guard (`router/mux/router.go`),
the gin render registry (`router/gin/render.go`) and the request builder, with
theorems settling the frozen claims about them.

Go maps (`map[string][]string`, `http.Header`) are embedded as association
lists with first-match lookup; Go `time.Duration` (an `int64` of nanoseconds)
as `Int`; fallible spots (a Go panic on `v[0]` of an empty slice) as `Option`.
-/

set_option autoImplicit false

namespace Krakend

/-! ## Header maps: `map[string][]string` as association lists -/

/-- `map[string][]string` (Go maps have at most one binding per key; we keep
    the first binding authoritative). -/
abbrev HMap := List (String × List String)

/-- Go map read `m[k]` with its `ok` flag folded into `Option`. -/
def hmLookup : HMap → String → Option (List String)
  | [], _ => none
  | (k0, v0) :: rest, k => if k0 = k then some v0 else hmLookup rest k

/-- Go map assignment `m[k] = v`. -/
def hmSet : HMap → String → List String → HMap
  | [], k, v => [(k, v)]
  | (k0, v0) :: rest, k, v =>
    if k0 = k then (k, v) :: rest else (k0, v0) :: hmSet rest k v

/-- Append one value to the slice stored under `k` (`http.Header.Add` after
    key canonicalization). -/
def hmAdd : HMap → String → String → HMap
  | [], k, v => [(k, [v])]
  | (k0, v0) :: rest, k, v =>
    if k0 = k then (k0, v0 ++ [v]) :: rest else (k0, v0) :: hmAdd rest k v

/-- Go map `delete(m, k)`. -/
def hmDel : HMap → String → HMap
  | [], _ => []
  | (k0, v0) :: rest, k => if k0 = k then hmDel rest k else (k0, v0) :: hmDel rest k

/-! ## `textproto.CanonicalMIMEHeaderKey` -/

/-- The extra bytes (besides ASCII letters and digits) allowed in a header
    field name by Go's `validHeaderFieldByte`. -/
def headerFieldExtraChars : List Char := "!#$%&'*+-.^_`|~".toList

/-- Go `validHeaderFieldByte`. -/
def validHeaderFieldChar (c : Char) : Bool :=
  c.isAlphanum || headerFieldExtraChars.contains c

/-- The casing loop of `CanonicalMIMEHeaderKey`: upper-case a letter at the
    start or after a hyphen, lower-case it elsewhere. -/
def canonicalChars : Bool → List Char → List Char
  | _, [] => []
  | upper, c :: cs =>
    let c2 := if upper then c.toUpper else c.toLower
    c2 :: canonicalChars (c2 = '-') cs

/-- `textproto.CanonicalMIMEHeaderKey`: returns the argument unchanged when it
    holds any invalid byte, otherwise canonicalizes the casing. -/
def canonicalMIMEHeaderKey (s : String) : String :=
  if s.toList.all validHeaderFieldChar then String.mk (canonicalChars true s.toList) else s

/-- `http.Header.Set` (canonicalizes the key, replaces all values). -/
def headerSet (h : HMap) (k v : String) : HMap :=
  hmSet h (canonicalMIMEHeaderKey k) [v]

/-- `http.Header.Add` (canonicalizes the key, appends one value). -/
def headerAdd (h : HMap) (k v : String) : HMap :=
  hmAdd h (canonicalMIMEHeaderKey k) v

/-- `http.Header.Get`: first value under the canonical key, `""` when absent. -/
def headerGet (h : HMap) (k : String) : String :=
  match hmLookup h (canonicalMIMEHeaderKey k) with
  | some (v :: _) => v
  | _ => ""

example : canonicalMIMEHeaderKey "x-krakenD-completed" = "X-Krakend-Completed" := by decide
example : canonicalMIMEHeaderKey "cache-control" = "Cache-Control" := by decide
example : canonicalMIMEHeaderKey "sp ace" = "sp ace" := by decide

/-! ## Data model (`config`, `proxy` packages) -/

/-- `config.Backend` (the fields the verified components read). -/
structure Backend where
  urlPattern : String := ""
  method : String := ""
  concurrentCalls : Int := 0
  timeout : Int := 0
  encoding : String := ""
deriving DecidableEq

/-- `config.EndpointConfig` (durations are `time.Duration`, i.e. `int64`
    nanoseconds, embedded as `Int`). -/
structure EndpointConfig where
  endpoint : String := ""
  method : String := ""
  timeout : Int := 0
  cacheTTL : Int := 0
  queryString : List String := []
  headersToPass : List String := []
  outputEncoding : String := ""
  backend : List Backend := []
deriving DecidableEq

/-- `proxy.Metadata`. -/
structure Metadata where
  headers : HMap := []
  statusCode : Nat := 0
deriving DecidableEq

/-- `proxy.Response`. `Data` is a `map[string]interface` tree; the handler
    only inspects its size, so entries are embedded as string pairs. `Io` is
    the raw byte stream, embedded as a string. -/
structure Response where
  data : List (String × String) := []
  isComplete : Bool := false
  metadata : Metadata := {}
  io : String := ""
deriving DecidableEq

/-- A pipeline error. `statusCode = some s` embeds an error that implements
    the `responseError` capability (`StatusCode() int`); `none` a plain one. -/
structure PipelineErr where
  msg : String := ""
  statusCode : Option Nat := none
deriving DecidableEq

/-- `strings.ToTitle`, restricted to the ASCII range method and header names
    live in (`Char.toUpper` only moves `a`-`z`). -/
def strTitle (s : String) : String := String.mk (s.toList.map Char.toUpper)

/-! ## Constants

`core.KrakendHeaderName/Value` are observable in the tests under `src`
(`X-Krakend: Version undefined`). The `router` package constants below are
not under `src`. -/

def krakendHeaderName : String := "X-Krakend"

def krakendHeaderValue : String := "Version undefined"

/-- Modelled from the spec: the `router` package completeness constants are
    not under `src`; §6 fixes one marker header with exactly the two values
    named `complete` and `incomplete`. -/
def completeResponseHeaderName : String := "X-Krakend-Completed"

/-- Modelled from the spec: the `complete` marker value (see
    `completeResponseHeaderName`). -/
def headerCompleteResponseValue : String := "complete"

/-- Modelled from the spec: the `incomplete` marker value (see
    `completeResponseHeaderName`). -/
def headerIncompleteResponseValue : String := "incomplete"

/-- Modelled from the spec: `router.ErrInternalError`, the generic internal
    error of §4.4 step 6; a plain error without the status-code capability. -/
def errInternalError : PipelineErr := { msg := "internal server error" }

/-- Modelled from the spec: `router.DefaultToHTTPError`, the default
    error-to-status mapping, constant 500 (§4.4 step 7). -/
def defaultToHTTPError (_ : PipelineErr) : Nat := 500

/-- `router.UserAgentHeaderValue`; its rendered value is pinned by the test
    under `src` (`endpoint_test.go` expects `KrakenD Version undefined`). -/
def userAgentHeaderValue : List String := ["KrakenD Version undefined"]

/-! ## `net/http` response writer -/

/-- The observable state of an `http.ResponseWriter`: headers, the explicit
    status (if `WriteHeader` ran; the first call wins) and the body bytes. -/
structure ResponseWriter where
  header : HMap := []
  status : Option Nat := none
  body : String := ""
deriving DecidableEq

/-- `http.ResponseWriter.WriteHeader`: only the first explicit status sticks. -/
def writeHeader (w : ResponseWriter) (code : Nat) : ResponseWriter :=
  { w with status := some (w.status.getD code) }

/-- `http.Error(w, error, code)`: plain-text content type, explicit status,
    the message plus a trailing newline as body. -/
def httpError (w : ResponseWriter) (error : String) (code : Nat) : ResponseWriter :=
  let w2 := { w with header := headerSet w.header "Content-Type" "text/plain; charset=utf-8" }
  let w3 := writeHeader w2 code
  { w3 with body := w3.body ++ error ++ "\n" }

/-! ## The mux endpoint handler (`router/mux/endpoint.go`,
`CustomEndpointHandlerWithHTTPError`) -/

/-- A render for the mux handler: a function from writer and (possibly
    absent) response to the updated writer, as in `mux/render.go`. -/
abbrev MuxRender := ResponseWriter → Option Response → ResponseWriter

/-- A crude JSON object serializer for the opaque `Data` entries (the
    handler's claims never inspect this text, only who writes the body). -/
def jsonEncodeData (data : List (String × String)) : String :=
  "\x7b" ++ String.intercalate ","
    (data.map (fun kv => "\"" ++ kv.1 ++ "\":\"" ++ kv.2 ++ "\"")) ++ "\x7d"

/-- Modelled from the spec: `mux/render.go` is not under `src`; per §4.4/§8
    the default JSON render writes `Content-Type: application/json` and the
    serialized `Data` (an empty JSON object for an absent response), leaving
    the status to the implicit 200 of the first body write. -/
def muxJsonRender : MuxRender := fun w response =>
  let w2 := { w with header := headerSet w.header "Content-Type" "application/json" }
  match response with
  | none => { w2 with body := w2.body ++ "\x7b\x7d" }
  | some r => { w2 with body := w2.body ++ jsonEncodeData r.data }

/-- What one invocation of the handler did: the final writer state, whether
    the proxy pipeline ran, and whether the render function ran. -/
structure HandlerOutcome where
  writer : ResponseWriter
  proxyCalled : Bool
  renderCalled : Bool
deriving DecidableEq

/-- The HTTP status of the written response: the explicit `WriteHeader`
    status, or the implicit 200 of `net/http`. -/
def HandlerOutcome.statusOut (o : HandlerOutcome) : Nat := o.writer.status.getD 200

/-- The completeness marker value carried by the response. -/
def HandlerOutcome.completeness (o : HandlerOutcome) : String :=
  headerGet o.writer.header completeResponseHeaderName

/-- The `Content-Type` of the response. -/
def HandlerOutcome.contentType (o : HandlerOutcome) : String :=
  headerGet o.writer.header "Content-Type"

/-- The values carried under `Cache-Control`, when the key is present. -/
def HandlerOutcome.cacheControl (o : HandlerOutcome) : Option (List String) :=
  hmLookup o.writer.header "Cache-Control"

/-- `response != nil && len(response.Data) > 0`. -/
def dataPresent : Option Response → Bool
  | none => false
  | some r => !r.data.isEmpty

/-- The header-copy loop `for k, vs := range response.Metadata.Headers ...`
    (`http.Header.Add` per value). -/
def copyMetadataHeaders (w : HMap) : HMap → HMap
  | [] => w
  | (k, vs) :: rest => copyMetadataHeaders (vs.foldl (fun acc v => headerAdd acc k v) w) rest

/-- `CustomEndpointHandlerWithHTTPError(rb, errF)(configuration, prxy)`, the
    per-request closure. The pipeline's contribution is its result
    (`response`, `pipelineErr`) plus `ctxDone`, the outcome of the
    `select` on `requestCtx.Done()` once the pipeline has returned; the
    `proxyCalled` flag records whether the early 405 return skipped it. -/
def endpointHandler (configuration : EndpointConfig) (errF : PipelineErr → Nat)
    (render : MuxRender) (rMethod : String) (response : Option Response)
    (pipelineErr : Option PipelineErr) (ctxDone : Bool) : HandlerOutcome :=
  let cacheControlHeaderValue := "public, max-age=" ++ toString (Int.tdiv configuration.cacheTTL 1000000000)
  let isCacheEnabled := configuration.cacheTTL ≠ 0
  let method := strTitle configuration.method
  let w0 : ResponseWriter := {}
  let w1 := { w0 with header := headerSet w0.header krakendHeaderName krakendHeaderValue }
  if rMethod ≠ method then
    let w2 := { w1 with
      header := headerSet w1.header completeResponseHeaderName headerIncompleteResponseValue }
    { writer := httpError w2 "" 405, proxyCalled := false, renderCalled := false }
  else
    let err := if ctxDone ∧ pipelineErr = none then some errInternalError else pipelineErr
    if dataPresent response then
      let w2 :=
        if (response.getD {}).isComplete then
          let wc := { w1 with
            header := headerSet w1.header completeResponseHeaderName headerCompleteResponseValue }
          if isCacheEnabled then
            { wc with header := headerSet wc.header "Cache-Control" cacheControlHeaderValue }
          else wc
        else
          { w1 with
            header := headerSet w1.header completeResponseHeaderName headerIncompleteResponseValue }
      let w3 := { w2 with
        header := copyMetadataHeaders w2.header (response.getD {}).metadata.headers }
      { writer := render w3 response, proxyCalled := true, renderCalled := true }
    else
      let w2 := { w1 with
        header := headerSet w1.header completeResponseHeaderName headerIncompleteResponseValue }
      match err with
      | some e =>
        let code := match e.statusCode with
          | some s => s
          | none => errF e
        { writer := httpError w2 e.msg code, proxyCalled := true, renderCalled := false }
      | none =>
        { writer := render w2 response, proxyCalled := true, renderCalled := true }

/-! Sanity checks replaying the handler tests of `endpoint_test.go`. -/

/-- The endpoint configuration every handler test case builds. -/
def testEndpointConfig : EndpointConfig :=
  { method := "GET", timeout := 10, cacheTTL := 21600000000000
    queryString := ["b", "c[]", "d"] }

example :
    let o := endpointHandler testEndpointConfig defaultToHTTPError muxJsonRender "GET"
      (some { isComplete := true, data := [("supu", "tupu")] }) none false
    o.statusOut = 200 ∧ o.writer.body = "\x7b\"supu\":\"tupu\"\x7d" ∧
      o.cacheControl = some ["public, max-age=21600"] ∧
      o.contentType = "application/json" ∧
      o.completeness = headerCompleteResponseValue ∧
      headerGet o.writer.header krakendHeaderName = krakendHeaderValue := by decide

example :
    let o := endpointHandler testEndpointConfig defaultToHTTPError muxJsonRender "GET"
      (some { isComplete := false, data := [("foo", "bar")] }) none false
    o.statusOut = 200 ∧ o.cacheControl = none ∧
      o.completeness = headerIncompleteResponseValue := by decide

example :
    let o := endpointHandler testEndpointConfig defaultToHTTPError muxJsonRender "GET"
      none (some { msg := "This is a dummy error" }) false
    o.statusOut = 500 ∧ o.writer.body = "This is a dummy error\n" ∧
      o.contentType = "text/plain; charset=utf-8" ∧
      o.completeness = headerIncompleteResponseValue := by decide

example :
    let o := endpointHandler testEndpointConfig defaultToHTTPError muxJsonRender "GET"
      (some { isComplete := false, data := [("foo", "bar")] })
      (some { msg := "This is a dummy error" }) false
    o.statusOut = 200 ∧ o.writer.body = "\x7b\"foo\":\"bar\"\x7d" ∧
      o.contentType = "application/json" := by decide

example :
    let o := endpointHandler testEndpointConfig defaultToHTTPError muxJsonRender "GET"
      none none true
    o.statusOut = 500 ∧ o.writer.body = errInternalError.msg ++ "\n" ∧
      o.completeness = headerIncompleteResponseValue := by decide

example :
    let o := endpointHandler testEndpointConfig defaultToHTTPError muxJsonRender "GET"
      none none false
    o.statusOut = 200 ∧ o.writer.body = "\x7b\x7d" ∧
      o.contentType = "application/json" ∧
      o.completeness = headerIncompleteResponseValue := by decide

example :
    let o := endpointHandler testEndpointConfig defaultToHTTPError muxJsonRender "PUT"
      none none false
    o.statusOut = 405 ∧ o.writer.body = "\n" ∧ o.proxyCalled = false ∧
      o.contentType = "text/plain; charset=utf-8" ∧
      o.completeness = headerIncompleteResponseValue := by decide

example :
    let o := endpointHandler testEndpointConfig defaultToHTTPError muxJsonRender "GET"
      none (some { msg := "this is a dummy error", statusCode := some 418 }) false
    o.statusOut = 418 ∧ o.writer.body = "this is a dummy error\n" ∧
      o.contentType = "text/plain; charset=utf-8" := by decide

/-! ## Map lemmas -/

theorem hmLookup_hmSet_self (m : HMap) (k : String) (v : List String) :
    hmLookup (hmSet m k v) k = some v := by
  induction m with
  | nil => simp [hmSet, hmLookup]
  | cons p rest ih =>
    by_cases h : p.1 = k
    · simp [hmSet, hmLookup, h]
    · simp [hmSet, hmLookup, h, ih]

theorem hmLookup_hmSet_ne (m : HMap) (k k2 : String) (v : List String) (h : k ≠ k2) :
    hmLookup (hmSet m k v) k2 = hmLookup m k2 := by
  induction m with
  | nil => simp [hmSet, hmLookup, h]
  | cons p rest ih =>
    by_cases h2 : p.1 = k
    · simp [hmSet, hmLookup, h2, h]
    · simp [hmSet, hmLookup, h2, ih]

theorem hmLookup_hmAdd_ne (m : HMap) (k k2 : String) (v : String) (h : k ≠ k2) :
    hmLookup (hmAdd m k v) k2 = hmLookup m k2 := by
  induction m with
  | nil => simp [hmAdd, hmLookup, h]
  | cons p rest ih =>
    by_cases h2 : p.1 = k
    · simp [hmAdd, hmLookup, h2, h]
    · simp [hmAdd, hmLookup, h2, ih]

theorem hmLookup_hmAdd_head (m : HMap) (k : String) (v x : String) (xs : List String)
    (h : hmLookup m k = some (x :: xs)) :
    hmLookup (hmAdd m k v) k = some (x :: (xs ++ [v])) := by
  induction m with
  | nil => simp [hmLookup] at h
  | cons p rest ih =>
    by_cases h2 : p.1 = k
    · simp [hmLookup, h2] at h
      simp [hmAdd, hmLookup, h2, h]
    · simp [hmLookup, h2] at h
      simp [hmAdd, hmLookup, h2, ih h]

/-- Values folded in by `headerAdd` under keys that do not canonicalize to
    `k` leave the binding of `k` alone. -/
theorem hmLookup_addValues_ne (k k2 : String) (vs : List String) (w : HMap)
    (h : canonicalMIMEHeaderKey k2 ≠ k) :
    hmLookup (vs.foldl (fun acc v => headerAdd acc k2 v) w) k = hmLookup w k := by
  induction vs generalizing w with
  | nil => rfl
  | cons v rest ih =>
    rw [List.foldl_cons, ih, headerAdd, hmLookup_hmAdd_ne _ _ _ _ h]

theorem hmLookup_copyMetadataHeaders_ne (k : String) (hs : HMap) (w : HMap)
    (h : ∀ p ∈ hs, canonicalMIMEHeaderKey p.1 ≠ k) :
    hmLookup (copyMetadataHeaders w hs) k = hmLookup w k := by
  induction hs generalizing w with
  | nil => rfl
  | cons p rest ih =>
    rw [copyMetadataHeaders, ih _ (fun q hq => h q (List.mem_cons_of_mem _ hq))]
    exact hmLookup_addValues_ne _ _ _ _ (h p (List.mem_cons_self _ _))

/-- Appending values with `headerAdd` never changes the first value stored
    under a key that already has one. -/
theorem hmLookup_addValues_head (k k2 : String) (vs : List String) (w : HMap)
    (x : String) (xs : List String) (h : hmLookup w k = some (x :: xs)) :
    ∃ ys, hmLookup (vs.foldl (fun acc v => headerAdd acc k2 v) w) k = some (x :: ys) := by
  induction vs generalizing w xs with
  | nil => exact ⟨xs, h⟩
  | cons v rest ih =>
    rw [List.foldl_cons, headerAdd]
    by_cases h2 : canonicalMIMEHeaderKey k2 = k
    · subst h2
      exact ih _ _ (hmLookup_hmAdd_head _ _ _ _ _ h)
    · exact ih _ _ (by rw [hmLookup_hmAdd_ne _ _ _ _ h2]; exact h)

theorem hmLookup_copyMetadataHeaders_head (k : String) (hs : HMap) (w : HMap)
    (x : String) (xs : List String) (h : hmLookup w k = some (x :: xs)) :
    ∃ ys, hmLookup (copyMetadataHeaders w hs) k = some (x :: ys) := by
  induction hs generalizing w xs with
  | nil => exact ⟨xs, h⟩
  | cons p rest ih =>
    rw [copyMetadataHeaders]
    obtain ⟨ys, hy⟩ := hmLookup_addValues_head k p.1 p.2 w x xs h
    exact ih _ _ hy

/-! ## The data branch, in closed form -/

/-- The `Cache-Control` value computed at handler-construction time:
    `fmt.Sprintf("public, max-age=%d", int(configuration.CacheTTL.Seconds()))`. -/
def cacheControlValue (cfg : EndpointConfig) : String :=
  "public, max-age=" ++ toString (Int.tdiv cfg.cacheTTL 1000000000)

/-- The header map the handler has written when a response with data reaches
    the render call, before the metadata headers are copied in. -/
def completenessHeader (cfg : EndpointConfig) (r : Response) : HMap :=
  let base := headerSet [] krakendHeaderName krakendHeaderValue
  if r.isComplete then
    let wc := headerSet base completeResponseHeaderName headerCompleteResponseValue
    if cfg.cacheTTL ≠ 0 then headerSet wc "Cache-Control" (cacheControlValue cfg) else wc
  else headerSet base completeResponseHeaderName headerIncompleteResponseValue

/-- On a method match, a response with non-empty `Data` always flows to the
    render call over the completeness/cache headers plus the copied metadata
    headers, whatever the error and context state. -/
theorem endpointHandler_data_branch (cfg : EndpointConfig) (errF : PipelineErr → Nat)
    (render : MuxRender) (r : Response) (pipelineErr : Option PipelineErr)
    (ctxDone : Bool) (hd : r.data ≠ []) :
    endpointHandler cfg errF render (strTitle cfg.method) (some r) pipelineErr ctxDone =
      { writer := render
          { header := copyMetadataHeaders (completenessHeader cfg r) r.metadata.headers,
            status := none, body := "" } (some r),
        proxyCalled := true, renderCalled := true } := by
  have hdp : dataPresent (some r) = true := by
    simp [dataPresent, List.isEmpty_iff, hd]
  simp only [endpointHandler, ne_eq, not_true_eq_false, if_false, hdp, if_true,
    completenessHeader, cacheControlValue, Option.getD]
  split
  · split <;> rfl
  · rfl

theorem canonical_completed :
    canonicalMIMEHeaderKey completeResponseHeaderName = completeResponseHeaderName := by decide

theorem canonical_cacheControl :
    canonicalMIMEHeaderKey "Cache-Control" = "Cache-Control" := by decide

theorem completenessHeader_marker (cfg : EndpointConfig) (r : Response) :
    hmLookup (completenessHeader cfg r) completeResponseHeaderName =
      some [if r.isComplete then headerCompleteResponseValue else headerIncompleteResponseValue] := by
  unfold completenessHeader
  split
  · simp only [if_true]
    split
    · rw [headerSet, canonical_cacheControl, hmLookup_hmSet_ne _ _ _ _ (by decide)]
      decide
    · decide
  · simp only [if_false]
    decide

theorem completenessHeader_cache (cfg : EndpointConfig) (r : Response) :
    hmLookup (completenessHeader cfg r) "Cache-Control" =
      if r.isComplete ∧ cfg.cacheTTL ≠ 0 then some [cacheControlValue cfg] else none := by
  unfold completenessHeader
  by_cases hc : r.isComplete
  · simp only [hc, if_true, true_and]
    split
    · rw [headerSet, canonical_cacheControl, hmLookup_hmSet_self]
    · decide
  · simp only [hc, if_false, Bool.false_eq_true, false_and]
    decide

/-! ## Claim C1: method matching -/

/-- Claim C1 is false as stated: with `EndpointConfig.Method = "GET"`, the
    inbound method `get` matches `GET` up to letter case only, yet the
    handler answers 405 without invoking the pipeline (the comparison is
    `r.Method != strings.ToTitle(configuration.Method)`, case-sensitive on
    the inbound side), and the 405 body is a single newline, not empty. -/
theorem C1_counterexample :
    ("get".toList.map Char.toLower = "GET".toList.map Char.toLower) ∧
    (endpointHandler { method := "GET" } defaultToHTTPError muxJsonRender "get"
        none none false).proxyCalled = false ∧
    (endpointHandler { method := "GET" } defaultToHTTPError muxJsonRender "get"
        none none false).statusOut = 405 ∧
    (endpointHandler { method := "GET" } defaultToHTTPError muxJsonRender "get"
        none none false).writer.body ≠ "" := by decide

/-- Claim C1 (amended): the inbound method is compared byte-for-byte against
    `strings.ToTitle(EndpointConfig.Method)` (only the configured side is
    case-normalized). On a mismatch the handler marks the completeness header
    `incomplete`, answers 405 with a body of a single newline (the
    `http.Error` rendering of the empty message, `text/plain`), and never
    invokes the proxy pipeline; on an exact match the pipeline is invoked. -/
theorem C1_method_comparison (cfg : EndpointConfig) (errF : PipelineErr → Nat)
    (render : MuxRender) (rMethod : String) (response : Option Response)
    (pipelineErr : Option PipelineErr) (ctxDone : Bool) :
    (rMethod ≠ strTitle cfg.method →
      (endpointHandler cfg errF render rMethod response pipelineErr ctxDone).proxyCalled = false ∧
      (endpointHandler cfg errF render rMethod response pipelineErr ctxDone).renderCalled = false ∧
      (endpointHandler cfg errF render rMethod response pipelineErr ctxDone).statusOut = 405 ∧
      (endpointHandler cfg errF render rMethod response pipelineErr ctxDone).completeness
        = headerIncompleteResponseValue ∧
      (endpointHandler cfg errF render rMethod response pipelineErr ctxDone).writer.body = "\n" ∧
      (endpointHandler cfg errF render rMethod response pipelineErr ctxDone).contentType
        = "text/plain; charset=utf-8") ∧
    (rMethod = strTitle cfg.method →
      (endpointHandler cfg errF render rMethod response pipelineErr ctxDone).proxyCalled = true) := by
  constructor
  · intro h
    simp only [endpointHandler, if_pos h]
    decide
  · intro h
    simp only [endpointHandler, h, ne_eq, not_true_eq_false, if_false]
    split
    · rfl
    · split <;> rfl

/-- Witness for `C1_method_comparison` at the test configuration: a `PUT`
    request against a `GET` endpoint is refused without touching the
    pipeline; a `GET` request reaches it. -/
theorem C1_method_comparison_witness :
    (endpointHandler testEndpointConfig defaultToHTTPError muxJsonRender "PUT"
        none none false).proxyCalled = false ∧
    (endpointHandler testEndpointConfig defaultToHTTPError muxJsonRender "GET"
        none none false).proxyCalled = true :=
  ⟨((C1_method_comparison testEndpointConfig defaultToHTTPError muxJsonRender "PUT"
      none none false).1 (by decide)).1,
   (C1_method_comparison testEndpointConfig defaultToHTTPError muxJsonRender "GET"
      none none false).2 (by decide)⟩

/-! ## Claim C2: deadline-expired disposition -/

/-- Claim C2 is false as stated: when the context is done but the pipeline
    returned a `Response` with `IsComplete = true` and non-empty `Data`, the
    handler renders it as a `complete` success (the completeness header
    mirrors `IsComplete`, never the context state), not as an `incomplete`
    one. -/
theorem C2_counterexample :
    (endpointHandler testEndpointConfig defaultToHTTPError muxJsonRender "GET"
        (some { isComplete := true, data := [("a", "b")] }) none true).completeness
      = headerCompleteResponseValue ∧
    headerCompleteResponseValue ≠ headerIncompleteResponseValue := by decide

/-- Claim C2 (amended): on a deadline-expired return with no pipeline error,
    the handler synthesizes the generic internal error when no usable `Data`
    is present — status 500 with the error message (plus newline) as body,
    completeness `incomplete`, the render skipped; but a `Response` with
    non-empty `Data` is rendered through the normal content path as a
    success (status 200), not as an error, with the completeness header
    reflecting `Response.IsComplete` (`incomplete` exactly when the response
    is partial), even though the context expired. -/
theorem C2_deadline_disposition (cfg : EndpointConfig) (response : Option Response) :
    (dataPresent response = false →
      (endpointHandler cfg defaultToHTTPError muxJsonRender (strTitle cfg.method)
          response none true).statusOut = 500 ∧
      (endpointHandler cfg defaultToHTTPError muxJsonRender (strTitle cfg.method)
          response none true).writer.body = errInternalError.msg ++ "\n" ∧
      (endpointHandler cfg defaultToHTTPError muxJsonRender (strTitle cfg.method)
          response none true).completeness = headerIncompleteResponseValue ∧
      (endpointHandler cfg defaultToHTTPError muxJsonRender (strTitle cfg.method)
          response none true).renderCalled = false) ∧
    (∀ r : Response, response = some r → r.data ≠ [] →
      (endpointHandler cfg defaultToHTTPError muxJsonRender (strTitle cfg.method)
          response none true).renderCalled = true ∧
      (endpointHandler cfg defaultToHTTPError muxJsonRender (strTitle cfg.method)
          response none true).statusOut = 200 ∧
      (endpointHandler cfg defaultToHTTPError muxJsonRender (strTitle cfg.method)
          response none true).completeness =
        (if r.isComplete then headerCompleteResponseValue else headerIncompleteResponseValue)) := by
  constructor
  · intro h
    have hrw : endpointHandler cfg defaultToHTTPError muxJsonRender (strTitle cfg.method)
        response none true
        = { writer := httpError
              { header := headerSet (headerSet [] krakendHeaderName krakendHeaderValue)
                  completeResponseHeaderName headerIncompleteResponseValue,
                status := none, body := "" }
              errInternalError.msg 500,
            proxyCalled := true, renderCalled := false } := by
      simp only [endpointHandler, ne_eq, not_true_eq_false, if_false, h, Bool.false_eq_true,
        and_self, if_true]
      rfl
    rw [hrw]
    decide
  · intro r hr hd
    subst hr
    rw [endpointHandler_data_branch cfg defaultToHTTPError muxJsonRender r none true hd]
    refine ⟨rfl, rfl, ?_⟩
    obtain ⟨ys, hy⟩ := hmLookup_copyMetadataHeaders_head completeResponseHeaderName
      r.metadata.headers (completenessHeader cfg r) _ []
      (completenessHeader_marker cfg r)
    simp only [HandlerOutcome.completeness, muxJsonRender, headerGet, headerSet,
      canonical_completed, (by decide : canonicalMIMEHeaderKey "Content-Type" = "Content-Type")]
    rw [hmLookup_hmSet_ne _ _ _ _ (by decide), hy]

/-- Witness for `C2_deadline_disposition`: the `cancelEmpty` shape (no data,
    expired context) yields the internal 500; the `cancel` shape (partial
    data) yields an incomplete 200. -/
theorem C2_deadline_disposition_witness :
    (endpointHandler testEndpointConfig defaultToHTTPError muxJsonRender "GET"
        none none true).statusOut = 500 ∧
    (endpointHandler testEndpointConfig defaultToHTTPError muxJsonRender "GET"
        (some { isComplete := false, data := [("foo", "bar")] }) none true).statusOut = 200 :=
  ⟨((C2_deadline_disposition testEndpointConfig none).1 (by decide)).1,
   ((C2_deadline_disposition testEndpointConfig
        (some { isComplete := false, data := [("foo", "bar")] })).2
      { isComplete := false, data := [("foo", "bar")] } rfl (by decide)).2.1⟩

/-! ## Claim C3: the error branch -/

/-- Claim C3: with no usable `Data` (absent response or empty `Data`) and a
    pipeline error, the handler marks the completeness header `incomplete`,
    answers with the error's `StatusCode()` verbatim when the error carries
    the `responseError` capability and with the pluggable `ToHTTPError`
    mapping otherwise (500 under the default mapping), writes the error
    message plus a trailing newline as a `text/plain; charset=utf-8` body,
    and never reaches the render function. -/
theorem C3_error_branch (cfg : EndpointConfig) (errF : PipelineErr → Nat)
    (render : MuxRender) (response : Option Response) (e : PipelineErr) (ctxDone : Bool)
    (h : dataPresent response = false) :
    (endpointHandler cfg errF render (strTitle cfg.method) response (some e)
        ctxDone).completeness = headerIncompleteResponseValue ∧
    (endpointHandler cfg errF render (strTitle cfg.method) response (some e)
        ctxDone).renderCalled = false ∧
    (endpointHandler cfg errF render (strTitle cfg.method) response (some e)
        ctxDone).statusOut = (match e.statusCode with | some s => s | none => errF e) ∧
    (endpointHandler cfg errF render (strTitle cfg.method) response (some e)
        ctxDone).writer.body = e.msg ++ "\n" ∧
    (endpointHandler cfg errF render (strTitle cfg.method) response (some e)
        ctxDone).contentType = "text/plain; charset=utf-8" ∧
    (e.statusCode = none → errF = defaultToHTTPError →
      (endpointHandler cfg errF render (strTitle cfg.method) response (some e)
          ctxDone).statusOut = 500) := by
  have hrw : endpointHandler cfg errF render (strTitle cfg.method) response (some e) ctxDone
      = { writer := httpError
            { header := headerSet (headerSet [] krakendHeaderName krakendHeaderValue)
                completeResponseHeaderName headerIncompleteResponseValue,
              status := none, body := "" }
            e.msg (match e.statusCode with | some s => s | none => errF e),
          proxyCalled := true, renderCalled := false } := by
    simp only [endpointHandler, ne_eq, not_true_eq_false, if_false, h, Bool.false_eq_true,
      and_false, reduceCtorEq]
  rw [hrw]
  refine ⟨rfl, rfl, rfl, rfl, rfl, ?_⟩
  intro hsc herrF
  subst herrF
  rw [hsc]
  rfl

/-- Witness for `C3_error_branch`: a teapot `responseError` yields 418; a
    plain error under the default mapping yields 500. -/
theorem C3_error_branch_witness :
    (endpointHandler testEndpointConfig defaultToHTTPError muxJsonRender "GET"
        none (some { msg := "this is a dummy error", statusCode := some 418 })
        false).statusOut = 418 ∧
    (endpointHandler testEndpointConfig defaultToHTTPError muxJsonRender "GET"
        none (some { msg := "This is a dummy error" }) false).statusOut = 500 :=
  ⟨(C3_error_branch testEndpointConfig defaultToHTTPError muxJsonRender none
      { msg := "this is a dummy error", statusCode := some 418 } false (by decide)).2.2.1,
   (C3_error_branch testEndpointConfig defaultToHTTPError muxJsonRender none
      { msg := "This is a dummy error" } false (by decide)).2.2.2.2.2 rfl rfl⟩

/-! ## Claim C4: the Cache-Control header -/

/-- Claim C4 is false as stated: the handler enables caching whenever
    `CacheTTL.Seconds() != 0`, not only when `CacheTTL > 0`. A complete
    response under `CacheTTL = -1s` carries `Cache-Control: public,
    max-age=-1` although the claimed condition `CacheTTL > 0` fails. -/
theorem C4_counterexample :
    (endpointHandler { method := "GET", cacheTTL := -1000000000 } defaultToHTTPError
        muxJsonRender "GET" (some { isComplete := true, data := [("a", "b")] })
        none false).cacheControl = some ["public, max-age=-1"] ∧
    ¬((-1000000000 : Int) > 0) := by decide

/-- Claim C4 (amended): for a response with non-empty `Data` whose metadata
    headers do not themselves name `Cache-Control`, the written response
    carries `Cache-Control: public, max-age=<CacheTTL truncated to whole
    seconds>` exactly when `Response.IsComplete` holds and `CacheTTL ≠ 0`
    (so also for negative TTLs); it is absent when `IsComplete` is false or
    `CacheTTL = 0`. -/
theorem C4_cache_control (cfg : EndpointConfig) (r : Response)
    (pipelineErr : Option PipelineErr) (ctxDone : Bool) (hd : r.data ≠ [])
    (hm : ∀ p ∈ r.metadata.headers, canonicalMIMEHeaderKey p.1 ≠ "Cache-Control") :
    (endpointHandler cfg defaultToHTTPError muxJsonRender (strTitle cfg.method) (some r)
        pipelineErr ctxDone).cacheControl
      = if r.isComplete ∧ cfg.cacheTTL ≠ 0 then some [cacheControlValue cfg] else none := by
  rw [endpointHandler_data_branch cfg defaultToHTTPError muxJsonRender r pipelineErr ctxDone hd]
  simp only [HandlerOutcome.cacheControl, muxJsonRender, headerSet,
    (by decide : canonicalMIMEHeaderKey "Content-Type" = "Content-Type")]
  rw [hmLookup_hmSet_ne _ _ _ _ (by decide),
    hmLookup_copyMetadataHeaders_ne _ _ _ hm, completenessHeader_cache]

/-- Witness for `C4_cache_control` at the test configuration (6h TTL,
    complete response): the response carries `public, max-age=21600`. -/
theorem C4_cache_control_witness :
    (endpointHandler testEndpointConfig defaultToHTTPError muxJsonRender "GET"
        (some { isComplete := true, data := [("supu", "tupu")] }) none false).cacheControl
      = some ["public, max-age=21600"] := by
  have h := C4_cache_control testEndpointConfig
    { isComplete := true, data := [("supu", "tupu")] } none false (by decide)
    (by intro p hp; simp at hp)
  simpa using h

/-! ## Claim C5: query-string selection (`NewRequestBuilder`) -/

def requestParamsAsterisk : String := "*"

/-- The query-building loop of `NewRequestBuilder`: on `"*"` the whole
    inbound `url.Values` map replaces the accumulator; otherwise only listed
    names present with a non-empty value slice are copied (`ok && len(v) > 0`
    is the slice defaulting to empty being non-empty). -/
def buildQueryAux (queryValues : HMap) : List String → HMap → HMap
  | [], acc => acc
  | q :: rest, acc =>
    if q = requestParamsAsterisk then queryValues
    else
      let v := (hmLookup queryValues q).getD []
      if v.isEmpty then buildQueryAux queryValues rest acc
      else buildQueryAux queryValues rest (hmSet acc q v)

/-- The outbound `Request.Query` built from the endpoint's `QueryString`
    list and the inbound parsed query. -/
def buildQuery (queryString : List String) (queryValues : HMap) : HMap :=
  buildQueryAux queryValues queryString []

/-- The spec's selection rule, stated independently of the loop: with `"*"`
    listed, every inbound parameter passes; otherwise exactly the listed
    names carrying a non-empty value sequence pass, values unchanged. -/
def specQuerySelection (queryString : List String) (queryValues : HMap) (k : String) :
    Option (List String) :=
  if requestParamsAsterisk ∈ queryString then hmLookup queryValues k
  else
    match hmLookup queryValues k with
    | some v => if k ∈ queryString ∧ v ≠ [] then some v else none
    | none => none

theorem buildQueryAux_star (qv : HMap) (qs : List String) (acc : HMap)
    (h : requestParamsAsterisk ∈ qs) : buildQueryAux qv qs acc = qv := by
  induction qs generalizing acc with
  | nil => cases h
  | cons q rest ih =>
    by_cases hq : q = requestParamsAsterisk
    · simp [buildQueryAux, hq]
    · have hmem : requestParamsAsterisk ∈ rest := by
        rcases List.mem_cons.mp h with h1 | h1
        · exact absurd h1.symm hq
        · exact h1
      simp only [buildQueryAux, hq, if_false]
      by_cases he : ((hmLookup qv q).getD []).isEmpty
      · rw [if_pos he]
        exact ih _ hmem
      · rw [if_neg he]
        exact ih _ hmem

theorem buildQueryAux_lookup (qv : HMap) (qs : List String) (acc : HMap) (k : String)
    (hstar : requestParamsAsterisk ∉ qs) :
    hmLookup (buildQueryAux qv qs acc) k =
      if k ∈ qs ∧ (hmLookup qv k).getD [] ≠ [] then hmLookup qv k
      else hmLookup acc k := by
  induction qs generalizing acc with
  | nil => simp [buildQueryAux]
  | cons q rest ih =>
    have hq : q ≠ requestParamsAsterisk := fun h => hstar (h ▸ List.mem_cons_self _ _)
    have hrest : requestParamsAsterisk ∉ rest := fun h => hstar (List.mem_cons_of_mem _ h)
    simp only [buildQueryAux, hq, if_false]
    by_cases he : ((hmLookup qv q).getD []).isEmpty
    · have hge : (hmLookup qv q).getD [] = [] := List.isEmpty_iff.mp he
      rw [if_pos he, ih _ hrest]
      by_cases hk : k = q
      · subst hk
        simp [hge]
      · simp [List.mem_cons, hk]
    · have hge : (hmLookup qv q).getD [] ≠ [] := fun hh => he (by simp [hh])
      have hsome : hmLookup qv q = some ((hmLookup qv q).getD []) := by
        rcases hv : hmLookup qv q with _ | v
        · exact absurd (by simp [hv]) hge
        · simp [hv]
      rw [if_neg he, ih _ hrest]
      by_cases hk : k = q
      · subst hk
        by_cases hmem : k ∈ rest ∧ (hmLookup qv k).getD [] ≠ []
        · rw [if_pos hmem, if_pos ⟨List.mem_cons_self _ _, hge⟩]
        · rw [if_neg hmem, if_pos ⟨List.mem_cons_self _ _, hge⟩, hmLookup_hmSet_self]
          exact hsome.symm
      · have hne : (k ∈ q :: rest ∧ (hmLookup qv k).getD [] ≠ [])
            ↔ (k ∈ rest ∧ (hmLookup qv k).getD [] ≠ []) := by
          simp [List.mem_cons, hk]
        rw [hmLookup_hmSet_ne _ _ _ _ (fun h => hk h.symm)]
        by_cases hmem : k ∈ rest ∧ (hmLookup qv k).getD [] ≠ []
        · rw [if_pos hmem, if_pos (hne.mpr hmem)]
        · rw [if_neg hmem, if_neg (fun h => hmem (hne.mp h))]

/-- Claim C5: the outbound `Request.Query` is exactly the spec's selection:
    the whole inbound query when `"*"` is listed, otherwise precisely the
    listed names present with a non-empty value sequence, keeping the full
    ordered values; in particular the documented scenario produces
    `b:[1], c[]:[x,y], d:[1,2]` with `a` absent. -/
theorem C5_query_selection (queryString : List String) (queryValues : HMap) (k : String) :
    hmLookup (buildQuery queryString queryValues) k
        = specQuerySelection queryString queryValues k ∧
    buildQuery ["b", "c[]", "d"]
        [("b", ["1"]), ("c[]", ["x", "y"]), ("d", ["1", "2"]), ("a", ["42"])]
      = [("b", ["1"]), ("c[]", ["x", "y"]), ("d", ["1", "2"])] := by
  refine ⟨?_, by decide⟩
  by_cases hstar : requestParamsAsterisk ∈ queryString
  · rw [buildQuery, buildQueryAux_star _ _ _ hstar, specQuerySelection, if_pos hstar]
  · rw [buildQuery, buildQueryAux_lookup _ _ _ _ hstar, specQuerySelection, if_neg hstar]
    rcases hv : hmLookup queryValues k with _ | v
    · simp [hmLookup]
    · by_cases hc : k ∈ queryString ∧ v ≠ []
      · simp [hc, hv]
      · have : ¬(k ∈ queryString ∧ (some v).getD [] ≠ []) := by simpa using hc
        simp only [this, if_false, if_neg hc, hmLookup]

/-! ## Claim C6: render resolution (`router/gin/render.go`) -/

/-- The render functions held by the gin registry, as symbols (C6 is about
    which one resolution picks, not about their bodies). -/
inductive RenderKind where
  | negotiated
  | stringRender
  | json
  | noop
deriving DecidableEq

/-- The registry's built-in contents (`renderRegister`): the `negotiate`
    render plus the `encoding` package's `string`, `json` and `noop` keys. -/
def renderRegister : List (String × RenderKind) :=
  [("negotiate", .negotiated), ("string", .stringRender),
   ("json", .json), ("noop", .noop)]

/-- Registry lookup (`renderRegister[key]` with its `ok` flag). -/
def renderLookup : List (String × RenderKind) → String → Option RenderKind
  | [], _ => none
  | (k0, r) :: rest, k => if k0 = k then some r else renderLookup rest k

/-- `getWithFallback`. -/
def getWithFallback (key : String) (fallback : RenderKind) : RenderKind :=
  match renderLookup renderRegister key with
  | some r => r
  | none => fallback

/-- `getRender`. -/
def getRender (cfg : EndpointConfig) : RenderKind :=
  let fallback := RenderKind.json
  let fallback := match cfg.backend with
    | [b] => getWithFallback b.encoding fallback
    | _ => fallback
  if cfg.outputEncoding = "" then fallback
  else getWithFallback cfg.outputEncoding fallback

/-- Claim C6 is false as stated: an `OutputEncoding` name absent from the
    registry does not fall back to JSON when a single backend carries a
    registered encoding — it falls back to that backend's render. Here
    `OutputEncoding = "bogus"` with one `noop` backend resolves to the noop
    render. -/
theorem C6_counterexample :
    getRender { outputEncoding := "bogus", backend := [{ encoding := "noop" }] }
        = RenderKind.noop ∧
    RenderKind.noop ≠ RenderKind.json := by decide

/-- Claim C6 (amended): render resolution is a pure function of the
    configuration (evaluated once at handler construction). A registered
    `OutputEncoding` wins; otherwise (unset or unregistered name) the
    fallback applies, which is the single backend's registered `Encoding`
    when exactly one backend exists, and the JSON render in every other case
    (several backends, none, or an unregistered backend encoding). -/
theorem C6_render_resolution (cfg : EndpointConfig) :
    (∀ r, renderLookup renderRegister cfg.outputEncoding = some r → getRender cfg = r) ∧
    (cfg.outputEncoding = "" ∨ renderLookup renderRegister cfg.outputEncoding = none →
      (∀ b r, cfg.backend = [b] → renderLookup renderRegister b.encoding = some r →
        getRender cfg = r) ∧
      (∀ b, cfg.backend = [b] → renderLookup renderRegister b.encoding = none →
        getRender cfg = RenderKind.json) ∧
      ((∀ b, cfg.backend ≠ [b]) → getRender cfg = RenderKind.json)) := by
  constructor
  · intro r hr
    have hne : cfg.outputEncoding ≠ "" := by
      intro h
      rw [h] at hr
      simp [renderLookup, renderRegister] at hr
    simp only [getRender, if_neg hne, getWithFallback, hr]
  · intro hout
    refine ⟨?_, ?_, ?_⟩
    · intro b r hb hr
      simp only [getRender, hb, getWithFallback, hr]
      rcases hout with h | h
      · rw [if_pos h]
      · split
        · rfl
        · simp only [getWithFallback, h]
    · intro b hb hr
      simp only [getRender, hb, getWithFallback, hr]
      rcases hout with h | h
      · rw [if_pos h]
      · split
        · rfl
        · simp only [getWithFallback, h]
    · intro hb
      have hmatch : (match cfg.backend with
          | [b] => getWithFallback b.encoding RenderKind.json
          | _ => RenderKind.json) = RenderKind.json := by
        match hcb : cfg.backend with
        | [] => rfl
        | [b] => exact absurd hcb (hb b)
        | _ :: _ :: _ => rfl
      simp only [getRender, hmatch]
      rcases hout with h | h
      · rw [if_pos h]
      · split
        · rfl
        · simp only [getWithFallback, h]

/-- Witness for `C6_render_resolution`: `OutputEncoding = "noop"` resolves
    to the noop render; an unset `OutputEncoding` with a single `string`
    backend resolves to the string render; with two backends it is JSON. -/
theorem C6_render_resolution_witness :
    getRender { outputEncoding := "noop" } = RenderKind.noop ∧
    getRender { backend := [{ encoding := "string" }] } = RenderKind.stringRender ∧
    getRender { backend := [{ encoding := "noop" }, { encoding := "noop" }] }
      = RenderKind.json :=
  ⟨(C6_render_resolution { outputEncoding := "noop" }).1 RenderKind.noop (by decide),
   ((C6_render_resolution { backend := [{ encoding := "string" }] }).2
      (Or.inl rfl)).1 { encoding := "string" } RenderKind.stringRender rfl (by decide),
   ((C6_render_resolution { backend := [{ encoding := "noop" }, { encoding := "noop" }] }).2
      (Or.inl rfl)).2.2 (fun b h => by simp at h)⟩

/-! ## Claim C7: the noop render (`router/gin/render.go`) -/

/-- The observable state of a `gin.Context` writer: status, headers, body. -/
structure GinContext where
  status : Nat := 200
  header : HMap := []
  body : String := ""
deriving DecidableEq

/-- `gin.Context.Header(key, value)`: an empty value deletes the (canonical)
    key, otherwise `http.Header.Set`. -/
def ginHeaderSet (c : GinContext) (key value : String) : GinContext :=
  if value = "" then { c with header := hmDel c.header (canonicalMIMEHeaderKey key) }
  else { c with header := headerSet c.header key value }

/-- The header loop of `noopRender`: `c.Header(k, v[0])` per entry; a Go
    panic on an empty value slice (`v[0]` out of range) is `none`. -/
def ginSetMetaHeaders : GinContext → HMap → Option GinContext
  | c, [] => some c
  | c, (k, vs) :: rest =>
    match vs with
    | [] => none
    | v0 :: _ => ginSetMetaHeaders (ginHeaderSet c k v0) rest

/-- `noopRender`: status 500 for an absent response; else
    `Metadata.StatusCode`, one `c.Header(k, v[0])` per metadata header, and
    `Response.Io` streamed to the body. -/
def ginNoopRender (c : GinContext) (response : Option Response) : Option GinContext :=
  match response with
  | none => some { c with status := 500 }
  | some r =>
    match ginSetMetaHeaders { c with status := r.metadata.statusCode } r.metadata.headers with
    | none => none
    | some c2 => some { c2 with body := c2.body ++ r.io }

theorem hmLookup_hmDel_ne (m : HMap) (k k2 : String) (h : k ≠ k2) :
    hmLookup (hmDel m k) k2 = hmLookup m k2 := by
  induction m with
  | nil => rfl
  | cons p rest ih =>
    by_cases h2 : p.1 = k
    · have hp : p.1 ≠ k2 := fun hc => h (h2.symm.trans hc)
      simp [hmDel, hmLookup, h2, hp, h, ih]
    · simp [hmDel, hmLookup, h2, ih]

/-- `ginHeaderSet` leaves status and body alone. -/
theorem ginHeaderSet_status_body (c : GinContext) (k v : String) :
    (ginHeaderSet c k v).status = c.status ∧ (ginHeaderSet c k v).body = c.body := by
  simp only [ginHeaderSet]
  split
  · exact ⟨rfl, rfl⟩
  · exact ⟨rfl, rfl⟩

/-- Entries under other canonical keys leave the binding of `K` alone. -/
theorem ginSetMetaHeaders_lookup_frame : ∀ (hs : HMap) (c c2 : GinContext) (K : String),
    (∀ p ∈ hs, canonicalMIMEHeaderKey p.1 ≠ K) →
    ginSetMetaHeaders c hs = some c2 →
    hmLookup c2.header K = hmLookup c.header K := by
  intro hs
  induction hs with
  | nil =>
    intro c c2 K hne h
    simp only [ginSetMetaHeaders, Option.some.injEq] at h
    rw [← h]
  | cons p rest ih =>
    intro c c2 K hne h
    rcases p with ⟨k, vs⟩
    match vs with
    | [] => simp [ginSetMetaHeaders] at h
    | v0 :: vrest =>
      simp only [ginSetMetaHeaders] at h
      have hk : canonicalMIMEHeaderKey k ≠ K := hne (k, v0 :: vrest) (List.mem_cons_self _ _)
      rw [ih _ _ _ (fun q hq => hne q (List.mem_cons_of_mem _ hq)) h]
      simp only [ginHeaderSet]
      split
      · exact hmLookup_hmDel_ne _ _ _ hk
      · exact hmLookup_hmSet_ne _ _ _ _ hk

theorem ginSetMetaHeaders_total : ∀ (hs : HMap) (c : GinContext),
    (∀ p ∈ hs, p.2 ≠ []) → ∃ c2, ginSetMetaHeaders c hs = some c2 := by
  intro hs
  induction hs with
  | nil => exact fun c _ => ⟨c, rfl⟩
  | cons p rest ih =>
    intro c hnp
    rcases p with ⟨k, vs⟩
    match vs with
    | [] => exact absurd rfl (hnp (k, []) (List.mem_cons_self _ _))
    | v0 :: vrest =>
      exact ih (ginHeaderSet c k v0) (fun q hq => hnp q (List.mem_cons_of_mem _ hq))

theorem ginSetMetaHeaders_status_body : ∀ (hs : HMap) (c c2 : GinContext),
    ginSetMetaHeaders c hs = some c2 →
    c2.status = c.status ∧ c2.body = c.body := by
  intro hs
  induction hs with
  | nil =>
    intro c c2 h
    simp only [ginSetMetaHeaders, Option.some.injEq] at h
    rw [← h]
    exact ⟨rfl, rfl⟩
  | cons p rest ih =>
    intro c c2 h
    rcases p with ⟨k, vs⟩
    match vs with
    | [] => simp [ginSetMetaHeaders] at h
    | v0 :: vrest =>
      simp only [ginSetMetaHeaders] at h
      have h2 := ih _ _ h
      have h3 := ginHeaderSet_status_body c k v0
      exact ⟨h2.1.trans h3.1, h2.2.trans h3.2⟩

/-- Each metadata entry whose canonical key is unique ends up bound to
    exactly its first (non-empty) value. -/
theorem ginSetMetaHeaders_lookup_mem : ∀ (hs : HMap) (c c2 : GinContext)
    (k v0 : String) (vrest : List String),
    (hs.map (fun p => canonicalMIMEHeaderKey p.1)).Nodup →
    (k, v0 :: vrest) ∈ hs → v0 ≠ "" →
    ginSetMetaHeaders c hs = some c2 →
    hmLookup c2.header (canonicalMIMEHeaderKey k) = some [v0] := by
  intro hs
  induction hs with
  | nil =>
    intro c c2 k v0 vrest _ hmem
    cases hmem
  | cons p rest ih =>
    intro c c2 k v0 vrest hnd hmem hv0 h
    rcases p with ⟨k1, vs1⟩
    match vs1, h with
    | w0 :: wrest, h =>
      simp only [ginSetMetaHeaders] at h
      simp only [List.map_cons, List.nodup_cons] at hnd
      rcases List.mem_cons.mp hmem with heq | hmem2
      · have hk : k = k1 := congrArg Prod.fst heq
        have hw : v0 = w0 := by
          have := congrArg Prod.snd heq
          simp at this
          exact this.1
        subst hk
        subst hw
        have hframe : ∀ q ∈ rest, canonicalMIMEHeaderKey q.1 ≠ canonicalMIMEHeaderKey k :=
          fun q hq hc => hnd.1 (hc ▸ List.mem_map_of_mem _ hq)
        rw [ginSetMetaHeaders_lookup_frame rest _ _ _ hframe h]
        simp only [ginHeaderSet, if_neg hv0, headerSet]
        exact hmLookup_hmSet_self _ _ _
      · exact ih _ _ _ _ _ hnd.2 hmem2 hv0 h

/-- A response carrying a multi-valued metadata header. -/
def multiValuedResponse : Response :=
  { metadata := { statusCode := 201, headers := [("X-Test", ["a", "b"])] }, io := "payload" }

/-- Claim C7 is false as stated: `noopRender` writes `c.Header(k, v[0])`, so
    only the first value of each metadata header survives. An entry
    `X-Test: [a, b]` is written as `X-Test: [a]`, not with both values. -/
theorem C7_counterexample :
    (ginNoopRender {} (some multiValuedResponse)).map
        (fun c => hmLookup c.header "X-Test")
      = some (some ["a"]) ∧
    some ["a"] ≠ (some ["a", "b"] : Option (List String)) := by decide

/-- Claim C7 (amended): for a response whose metadata headers have pairwise
    distinct canonical keys and no empty value slice (an empty slice panics
    on `v[0]`), the noop render writes status exactly
    `Metadata.StatusCode`, streams `Io` byte-for-byte as the body, and sets
    each header key to its first value only (values beyond the first are
    dropped; an empty first value would delete the key instead). -/
theorem C7_noop_render (r : Response)
    (hnp : ∀ p ∈ r.metadata.headers, p.2 ≠ [])
    (hnd : (r.metadata.headers.map (fun p => canonicalMIMEHeaderKey p.1)).Nodup) :
    ∃ c : GinContext, ginNoopRender {} (some r) = some c ∧
      c.status = r.metadata.statusCode ∧
      c.body = r.io ∧
      ∀ k v0 vrest, (k, v0 :: vrest) ∈ r.metadata.headers → v0 ≠ "" →
        hmLookup c.header (canonicalMIMEHeaderKey k) = some [v0] := by
  obtain ⟨c2, h2⟩ := ginSetMetaHeaders_total r.metadata.headers
    { status := r.metadata.statusCode, header := [], body := "" } hnp
  have hsb := ginSetMetaHeaders_status_body _ _ _ h2
  refine ⟨{ c2 with body := c2.body ++ r.io }, ?_, hsb.1, ?_, ?_⟩
  · simp only [ginNoopRender, h2]
  · rw [hsb.2]
    rfl
  · intro k v0 vrest hmem hv0
    show hmLookup c2.header (canonicalMIMEHeaderKey k) = some [v0]
    exact ginSetMetaHeaders_lookup_mem _ _ _ _ _ _ hnd hmem hv0 h2

/-- A response with one metadata header, a teapot status and a payload. -/
def passthroughResponse : Response :=
  { metadata := { statusCode := 418, headers := [("X-YZ", ["something"])] }, io := "stream" }

/-- Witness for `C7_noop_render`: one metadata header, teapot status, a
    payload body. -/
theorem C7_noop_render_witness :
    ∃ c : GinContext, ginNoopRender {} (some passthroughResponse) = some c ∧
      c.status = 418 ∧ c.body = "stream" ∧
      hmLookup c.header (canonicalMIMEHeaderKey "X-YZ") = some ["something"] := by
  obtain ⟨c, h1, h2, h3, h4⟩ := C7_noop_render passthroughResponse (by decide) (by decide)
  exact ⟨c, h1, by rw [h2]; rfl, by rw [h3]; rfl,
    h4 "X-YZ" "something" [] (by decide) (by decide)⟩

/-! ## Claim C8: registration-time guard (`router/mux/router.go`) -/

/-- The five methods of `registerKrakendEndpoint`'s `switch`. -/
def supportedMethod (m : String) : Bool :=
  m = "GET" || m = "POST" || m = "PUT" || m = "PATCH" || m = "DELETE"

/-- `registerKrakendEndpoint`: `some (path, method)` stands for the single
    `Engine.Handle(path, method, handler)` call, `none` for the logged early
    returns. -/
def registerKrakendEndpoint (method path : String) (totBackends : Nat) :
    Option (String × String) :=
  if strTitle method ≠ "GET" ∧ totBackends > 1 then none
  else if supportedMethod (strTitle method) then some (path, strTitle method) else none

/-- Claim C8: for configurations honoring the data-model invariant of at
    least one backend, `registerKrakendEndpoint` calls `Engine.Handle`
    exactly when the (title-cased) method is one of GET, POST, PUT, PATCH,
    DELETE and either it is GET (any backend count) or there is exactly one
    backend; otherwise it returns without registering, and a registered
    endpoint is bound at exactly the given path and title-cased method. -/
theorem C8_registration_guard (method path : String) (totBackends : Nat)
    (hb : 1 ≤ totBackends) :
    ((registerKrakendEndpoint method path totBackends).isSome = true ↔
      (supportedMethod (strTitle method) = true ∧
        (strTitle method = "GET" ∨ totBackends = 1))) ∧
    (∀ p m, registerKrakendEndpoint method path totBackends = some (p, m) →
      p = path ∧ m = strTitle method) := by
  refine ⟨?_, ?_⟩
  · unfold registerKrakendEndpoint
    by_cases hcond : strTitle method ≠ "GET" ∧ totBackends > 1
    · rw [if_pos hcond]
      simp only [Option.isSome_none, Bool.false_eq_true, false_iff]
      rintro ⟨_, hor⟩
      rcases hor with h | h
      · exact hcond.1 h
      · omega
    · rw [if_neg hcond]
      push_neg at hcond
      by_cases hs : supportedMethod (strTitle method) = true
      · rw [if_pos hs]
        simp only [Option.isSome_some, true_iff]
        refine ⟨hs, ?_⟩
        by_cases hM : strTitle method = "GET"
        · exact Or.inl hM
        · have := hcond hM
          omega
      · rw [if_neg hs]
        simp only [Option.isSome_none, Bool.false_eq_true, false_iff]
        rintro ⟨hs2, _⟩
        exact hs hs2
  · intro p m h
    unfold registerKrakendEndpoint at h
    split at h
    · exact absurd h (by simp)
    · split at h
      · simp only [Option.some.injEq, Prod.mk.injEq] at h
        exact ⟨h.1.symm, h.2.symm⟩
      · exact absurd h (by simp)

/-- Witness for `C8_registration_guard`: a GET endpoint with three backends
    registers; a PUT endpoint with two backends does not. -/
theorem C8_registration_guard_witness :
    (registerKrakendEndpoint "GET" "/multi" 3).isSome = true ∧
    (registerKrakendEndpoint "PUT" "/multi" 2).isSome = false := by
  constructor
  · exact (C8_registration_guard "GET" "/multi" 3 (by decide)).1.mpr
      ⟨by decide, Or.inl (by decide)⟩
  · have h := (C8_registration_guard "PUT" "/multi" 2 (by decide)).1
    by_cases hx : (registerKrakendEndpoint "PUT" "/multi" 2).isSome = true
    · rcases h.mp hx with ⟨_, hor⟩
      rcases hor with h1 | h1
      · exact absurd h1 (by decide)
      · exact absurd h1 (by decide)
    · simpa using hx

/-! ## Claim C9: hedging arbitration (`proxy.NewConcurrentMiddleware`) -/

/-- Modelled from the spec: the concurrent middleware's source is not under
    `src` (only benchmark callers are). Per §4.3, the `N` hedged calls'
    outcomes are arbitrated in arrival (completion) order: the first
    non-error result wins; if every call fails, the error of the call that
    completed last is returned. The list holds the per-call results in
    arrival order; `none` only for the impossible empty run. -/
def hedgeResult {E R : Type} : List (Except E R) → Option (Except E R)
  | [] => none
  | Except.ok r :: _ => some (Except.ok r)
  | [Except.error e] => some (Except.error e)
  | Except.error _ :: x :: rest => hedgeResult (x :: rest)

/-- The first non-error result in arrival order. -/
def firstOk {E R : Type} : List (Except E R) → Option R
  | [] => none
  | Except.ok r :: _ => some r
  | Except.error _ :: rest => firstOk rest

/-- How many of the hedged calls failed. -/
def countErrors {E R : Type} (rs : List (Except E R)) : Nat :=
  rs.countP (fun x => match x with | Except.error _ => true | _ => false)

theorem hedgeResult_all_errors {E R : Type} : ∀ (rs : List (Except E R)), rs ≠ [] →
    countErrors rs = rs.length → hedgeResult rs = rs.getLast? := by
  intro rs
  induction rs with
  | nil => exact fun h _ => absurd rfl h
  | cons x rest ih =>
    intro _ hcount
    match x with
    | Except.ok r =>
      exfalso
      have h1 : countErrors (Except.ok r :: rest) = countErrors rest := by
        simp [countErrors, List.countP_cons]
      have h2 : countErrors rest ≤ rest.length := List.countP_le_length _
      rw [h1] at hcount
      simp [List.length_cons] at hcount
      omega
    | Except.error e =>
      match rest with
      | [] => rfl
      | y :: rest2 =>
        have h1 : countErrors (y :: rest2) = (y :: rest2).length := by
          have : countErrors (Except.error e :: y :: rest2)
              = countErrors (y :: rest2) + 1 := by
            simp [countErrors, List.countP_cons]
          rw [this] at hcount
          simpa using hcount
        rw [show hedgeResult (Except.error e :: y :: rest2)
            = hedgeResult (y :: rest2) from rfl,
          ih (by simp) h1]
        rfl

theorem hedgeResult_first_ok {E R : Type} : ∀ (rs : List (Except E R)) (r : R),
    hedgeResult rs = some (Except.ok r) → firstOk rs = some r := by
  intro rs
  induction rs with
  | nil => intro r h; cases h
  | cons x rest ih =>
    intro r h
    match x with
    | Except.ok r2 =>
      simp only [hedgeResult, Option.some.injEq, Except.ok.injEq] at h
      simp [firstOk, h]
    | Except.error e =>
      match rest with
      | [] => cases h
      | y :: rest2 => exact ih r h

theorem hedgeResult_ok_iff {E R : Type} : ∀ (rs : List (Except E R)),
    countErrors rs < rs.length ↔ ∃ r, hedgeResult rs = some (Except.ok r) := by
  intro rs
  induction rs with
  | nil => simp [countErrors, hedgeResult]
  | cons x rest ih =>
    match x with
    | Except.ok r =>
      constructor
      · exact fun _ => ⟨r, rfl⟩
      · intro _
        have h2 : countErrors rest ≤ rest.length := List.countP_le_length _
        have h1 : countErrors (Except.ok r :: rest) = countErrors rest := by
          simp [countErrors, List.countP_cons]
        rw [h1]
        simp [List.length_cons]
        omega
    | Except.error e =>
      have h1 : countErrors (Except.error e :: rest) = countErrors rest + 1 := by
        simp [countErrors, List.countP_cons]
      match rest with
      | [] =>
        simp [h1, hedgeResult, countErrors]
      | y :: rest2 =>
        rw [show hedgeResult (Except.error e :: y :: rest2)
            = hedgeResult (y :: rest2) from rfl]
        rw [h1, List.length_cons, Nat.add_lt_add_iff_right]
        exact ih

/-- Claim C9: with the hedged calls' outcomes listed in arrival order (any
    run of `N = ConcurrentCalls > 1` calls, `k` of them failing): the
    middleware returns a success exactly when `k < N`, that success is the
    first non-error result by arrival order, and when `k = N` it returns the
    result of the call that completed last — the last error, not the first. -/
theorem C9_hedging (rs : List (Except PipelineErr Response)) (hn : 2 ≤ rs.length) :
    (countErrors rs < rs.length ↔ ∃ r, hedgeResult rs = some (Except.ok r)) ∧
    (∀ r, hedgeResult rs = some (Except.ok r) → firstOk rs = some r) ∧
    (countErrors rs = rs.length → hedgeResult rs = rs.getLast?) :=
  ⟨hedgeResult_ok_iff rs, hedgeResult_first_ok rs,
   hedgeResult_all_errors rs (by intro h; rw [h] at hn; simp at hn)⟩

/-- A three-call run: fail, succeed, fail (arrival order). -/
def hedgeRunMixed : List (Except PipelineErr Response) :=
  [Except.error { msg := "boom" }, Except.ok { data := [("a", "b")] },
   Except.error { msg := "late" }]

/-- A two-call run where every call fails. -/
def hedgeRunAllFailed : List (Except PipelineErr Response) :=
  [Except.error { msg := "first" }, Except.error { msg := "last" }]

/-- Witness for `C9_hedging`: the mixed run succeeds with the first success
    by arrival; the all-failed run returns its last error. -/
theorem C9_hedging_witness :
    (∃ r, hedgeResult hedgeRunMixed = some (Except.ok r)) ∧
    hedgeResult hedgeRunAllFailed = hedgeRunAllFailed.getLast? :=
  ⟨(C9_hedging hedgeRunMixed (by decide)).1.mp (by decide),
   (C9_hedging hedgeRunAllFailed (by decide)).2.2 (by decide)⟩

/-! ## Claim C10: header aliasing in `NewRequestBuilder` -/

/-- The parts of the inbound `http.Request` the builder reads. -/
structure InboundRequest where
  method : String := ""
  urlQuery : HMap := []
  header : HMap := []
  remoteAddr : String := ""
  body : String := ""
deriving DecidableEq

/-- `proxy.Request`. -/
structure ProxyRequest where
  method : String
  query : HMap
  body : String
  params : List (String × String)
  headers : HMap
deriving DecidableEq

/-- The headers loop of `NewRequestBuilder`: on `"*"` the inbound header map
    itself becomes the outbound map (the `Bool` records that aliasing);
    otherwise listed names found under their canonical key are copied into
    the fresh map under the listed spelling. -/
def collectHeaders (rHeader : HMap) : List String → HMap → HMap × Bool
  | [], acc => (acc, false)
  | k :: ks, acc =>
    if k = requestParamsAsterisk then (rHeader, true)
    else
      match hmLookup rHeader (canonicalMIMEHeaderKey k) with
      | some h => collectHeaders rHeader ks (hmSet acc k h)
      | none => collectHeaders rHeader ks acc

/-- A character the regex class `[\d.:]` accepts. -/
def isHostChar (c : Char) : Bool := c.isDigit || c = '.' || c = ':'

/-- The suffix `(:[\d]*)$`. -/
def matchPortTail : List Char → Bool
  | ':' :: ds => ds.all Char.isDigit
  | _ => false

/-- The suffix `\]?(:[\d]*)$`. -/
def matchAfterGroup (cs : List Char) : Bool :=
  matchPortTail cs ||
    (match cs with
     | ']' :: rest => matchPortTail rest
     | _ => false)

/-- Greedy matching of the capture `([\d.:]+)` followed by
    `\]?(:[\d]*)$`: extend the group as far as possible, backtracking to the
    longest split whose remainder matches. -/
def grabGroup : List Char → List Char → Option (List Char)
  | _, [] => none
  | acc, c :: cs =>
    if isHostChar c then
      match grabGroup (acc ++ [c]) cs with
      | some g => some g
      | none =>
        if acc.isEmpty then none
        else if matchAfterGroup (c :: cs) then some acc else none
    else
      if acc.isEmpty then none
      else if matchAfterGroup (c :: cs) then some acc else none

/-- `regexp.MustCompile("^\[?([\d.:]+)\]?(:[\d]*)$")` applied to
    `RemoteAddr`: the first capture group of a full-string match. -/
def xffExtract (remoteAddr : String) : Option String :=
  match remoteAddr.toList with
  | '[' :: rest => (grabGroup [] rest).map String.mk
  | cs => (grabGroup [] cs).map String.mk

/-- The value written under `X-Forwarded-For`: the extracted host, or the
    raw `RemoteAddr` when the pattern does not match. -/
def xForwardedFor (remoteAddr : String) : String :=
  match xffExtract remoteAddr with
  | some h => h
  | none => remoteAddr

example : xffExtract "127.0.0.1:8080" = some "127.0.0.1" := by decide
example : xffExtract "[::1]:8080" = some "::1" := by decide
example : xffExtract "" = none := by decide
example : xffExtract "localhost:8080" = none := by decide

/-- `NewRequestBuilder(paramExtractor)` applied to one request: the built
    `proxy.Request` plus the inbound header map as it stands after the call
    (in Go the `"*"` case aliases `r.Header`, so the builder's later writes
    of `X-Forwarded-For` and `User-Agent` land in the inbound map too). -/
def newRequestBuilder (params : List (String × String)) (r : InboundRequest)
    (queryString headersToSend : List String) : ProxyRequest × HMap :=
  let pair := collectHeaders r.header headersToSend []
  let headers2 := hmSet (hmSet pair.1 "X-Forwarded-For" [xForwardedFor r.remoteAddr])
    "User-Agent" userAgentHeaderValue
  ({ method := r.method, query := buildQuery queryString r.urlQuery,
     body := r.body, params := params, headers := headers2 },
   if pair.2 then headers2 else r.header)

theorem collectHeaders_star (rHeader : HMap) : ∀ (ks : List String) (acc : HMap),
    requestParamsAsterisk ∈ ks → collectHeaders rHeader ks acc = (rHeader, true) := by
  intro ks
  induction ks with
  | nil => intro acc h; cases h
  | cons k rest ih =>
    intro acc h
    by_cases hk : k = requestParamsAsterisk
    · simp [collectHeaders, hk]
    · have hmem : requestParamsAsterisk ∈ rest := by
        rcases List.mem_cons.mp h with h1 | h1
        · exact absurd h1.symm hk
        · exact h1
      simp only [collectHeaders, hk, if_false]
      rcases hv : hmLookup rHeader (canonicalMIMEHeaderKey k) with _ | hval
      · show collectHeaders rHeader rest acc = (rHeader, true)
        exact ih _ hmem
      · show collectHeaders rHeader rest (hmSet acc k hval) = (rHeader, true)
        exact ih _ hmem

theorem collectHeaders_no_star (rHeader : HMap) : ∀ (ks : List String) (acc : HMap),
    requestParamsAsterisk ∉ ks → (collectHeaders rHeader ks acc).2 = false := by
  intro ks
  induction ks with
  | nil => intro acc _; rfl
  | cons k rest ih =>
    intro acc h
    have hk : k ≠ requestParamsAsterisk := fun hh => h (hh ▸ List.mem_cons_self _ _)
    have hrest : requestParamsAsterisk ∉ rest := fun hh => h (List.mem_cons_of_mem _ hh)
    simp only [collectHeaders, hk, if_false]
    rcases hv : hmLookup rHeader (canonicalMIMEHeaderKey k) with _ | hval
    · show (collectHeaders rHeader rest acc).2 = false
      exact ih _ hrest
    · show (collectHeaders rHeader rest (hmSet acc k hval)).2 = false
      exact ih _ hrest

/-- Claim C10: when the headers-to-pass list contains `"*"`, the outbound
    `Request.Headers` is the inbound header map itself, so the unconditional
    `X-Forwarded-For` and `User-Agent` writes land in the inbound request's
    header map (after the call it equals the outbound map, i.e. the inbound
    map with those two entries overwritten); for any list without `"*"` a
    fresh map is built and the inbound header map is left unchanged. -/
theorem C10_header_aliasing (params : List (String × String)) (r : InboundRequest)
    (queryString headersToSend : List String) :
    (requestParamsAsterisk ∈ headersToSend →
      (newRequestBuilder params r queryString headersToSend).2
          = (newRequestBuilder params r queryString headersToSend).1.headers ∧
      (newRequestBuilder params r queryString headersToSend).2
          = hmSet (hmSet r.header "X-Forwarded-For" [xForwardedFor r.remoteAddr])
              "User-Agent" userAgentHeaderValue) ∧
    (requestParamsAsterisk ∉ headersToSend →
      (newRequestBuilder params r queryString headersToSend).2 = r.header) := by
  constructor
  · intro hmem
    have hc := collectHeaders_star r.header headersToSend [] hmem
    simp only [newRequestBuilder, hc]
    exact ⟨rfl, rfl⟩
  · intro hmem
    have hc := collectHeaders_no_star r.header headersToSend [] hmem
    simp only [newRequestBuilder, hc, Bool.false_eq_true, if_false]

/-- The inbound request of the handler tests: a JSON content type and a
    loopback remote address. -/
def sampleInbound : InboundRequest :=
  { header := [("Content-Type", ["application/json"])], remoteAddr := "127.0.0.1:8080" }

/-- Witness for `C10_header_aliasing`: with `["*"]` the inbound map after
    the call is the outbound map (mutated); with `["Content-Type"]` it is
    untouched. -/
theorem C10_header_aliasing_witness :
    (newRequestBuilder [] sampleInbound [] ["*"]).2
        = (newRequestBuilder [] sampleInbound [] ["*"]).1.headers ∧
    (newRequestBuilder [] sampleInbound [] ["Content-Type"]).2 = sampleInbound.header :=
  ⟨((C10_header_aliasing [] sampleInbound [] ["*"]).1 (by decide)).1,
   (C10_header_aliasing [] sampleInbound [] ["Content-Type"]).2 (by decide)⟩

/-- The aliasing is observable: after a `"*"` build the inbound map gained
    the `User-Agent` entry it did not have before. -/
example :
    hmLookup (newRequestBuilder [] sampleInbound [] ["*"]).2 "User-Agent"
        = some ["KrakenD Version undefined"] ∧
    hmLookup sampleInbound.header "User-Agent" = none ∧
    (newRequestBuilder [] sampleInbound [] ["Content-Type"]).1.headers
      = [("Content-Type", ["application/json"]),
         ("X-Forwarded-For", ["127.0.0.1"]),
         ("User-Agent", ["KrakenD Version undefined"])] := by decide

end Krakend
